import Mathlib

/-!
Verification of the IMC trading-challenge decision engine (`Trader.py`).

The Python module is shallowly embedded here:

* JSON values produced by `json.loads` become the inductive type `JVal`;
  a `traderData` blob is `Option JVal` (`none` models a string that fails
  to parse, `some v` a string parsing to the value `v`).
* Python `dict`s become insertion-ordered association lists, matching
  CPython's key-order semantics (new keys are appended at the end,
  updates happen in place).
* Operations that can raise (`x in h` on a number, `h[k] = v` on a list,
  `h[k].append(p)` when `h[k]` is not a list, arithmetic on non-numbers)
  return `Except PyErr`.
* Prices and quantities are exact rationals; the float square root in the
  rolling standard deviation is `Real.sqrt`.
-/

/-- Python exception classes that the embedded code can raise. -/
inductive PyErr where
  | typeError
  | attributeError
  | keyError
deriving DecidableEq, Repr

/-- A parsed JSON value, the result of a successful `json.loads`. -/
inductive JVal where
  | null
  | bool (b : Bool)
  | num (q : ℚ)
  | str (s : String)
  | arr (xs : List JVal)
  | obj (kvs : List (String × JVal))

/-- A persisted-state blob: `none` is a string `json.loads` rejects,
`some v` a string parsing to `v`.  `json.dumps` always succeeds on the
states this system builds, so encoding is `some`. -/
def Blob : Type := Option JVal

/-- An order intent: `Order(product, price, quantity)`; positive quantity
buys, negative sells. -/
structure Order where
  symbol : String
  price : ℚ
  quantity : ℚ
deriving DecidableEq, Repr

/-- One instrument's book: the `buy_orders` / `sell_orders` dicts of
`OrderDepth`, as (price, size) pairs.  The engine only ever reads the
price keys and dict truthiness. -/
structure OrderDepth where
  buy_orders : List (ℚ × ℤ)
  sell_orders : List (ℚ × ℤ)
deriving DecidableEq, Repr

/-- First-match association-list lookup: Python `h[k]` / `k in h` on a
dict with unique keys. -/
def lookupKey {α : Type} (k : String) : List (String × α) → Option α
  | [] => none
  | (k', v) :: rest => if k' = k then some v else lookupKey k rest

/-- In-place dict update `h[k] = v`: every entry whose key is `k` gets the
new value, all other entries (and the order) are untouched. -/
def updKey {α : Type} (k : String) (v : α) : List (String × α) → List (String × α)
  | [] => []
  | (k', v') :: rest =>
    if k' = k then (k', v) :: updKey k v rest else (k', v') :: updKey k v rest

/-- Membership of the string `k` in a Python list of JSON values: only a
string element equal to `k` matches. -/
def jmemStr (k : String) (xs : List JVal) : Bool :=
  xs.any fun v => match v with
    | .str s => s = k
    | _ => false

/-- Python substring containment `sub in s`. -/
def strContains (s sub : String) : Bool :=
  decide (sub.data <:+: s.data)

/-- Python `k in h`: dict keys, list membership, substring for strings;
`TypeError` on numbers, booleans and `null`. -/
def jHasKey : JVal → String → Except PyErr Bool
  | .obj kvs, k => .ok (lookupKey k kvs).isSome
  | .arr xs, k => .ok (jmemStr k xs)
  | .str s, k => .ok (strContains s k)
  | _, _ => .error .typeError

/-- Python `if k not in h: h[k] = v`.  On a dict the new key is appended
at the end; the item assignment raises `TypeError` on any non-dict. -/
def jSetDefault (h : JVal) (k : String) (v : JVal) : Except PyErr JVal :=
  match jHasKey h k with
  | .error e => .error e
  | .ok true => .ok h
  | .ok false =>
    match h with
    | .obj kvs => .ok (.obj (kvs ++ [(k, v)]))
    | _ => .error .typeError

/-- Python `h[k]` on the result of `json.loads`: dict lookup (`KeyError`
when absent), `TypeError` for string subscripts on anything else. -/
def jGet : JVal → String → Except PyErr JVal
  | .obj kvs, k =>
    match lookupKey k kvs with
    | some v => .ok v
    | none => .error .keyError
  | _, _ => .error .typeError

/-- Python `h[k].append(x)` followed by re-reading `h[k]`: succeeds only
when `h` is a dict whose entry `k` is a list; returns the updated dict
and the updated list. -/
def jAppendKey (h : JVal) (k : String) (x : JVal) : Except PyErr (JVal × List JVal)
  :=
  match h with
  | .obj kvs =>
    match lookupKey k kvs with
    | some (.arr xs) => .ok (.obj (updKey k (.arr (xs ++ [x])) kvs), xs ++ [x])
    | some _ => .error .attributeError
    | none => .error .keyError
  | _ => .error .typeError

/-- Python numeric coercion used by `sum`, `-` and `*`: numbers are
themselves, booleans count as 0/1, everything else raises `TypeError`. -/
def asNum : JVal → Except PyErr ℚ
  | .num q => .ok q
  | .bool b => .ok (if b then 1 else 0)
  | _ => .error .typeError

/-- Elementwise numeric view of a JSON list, as needed by
`sum(recent_prices)`. -/
def asNums : List JVal → Except PyErr (List ℚ)
  | [] => .ok []
  | v :: vs =>
    match asNum v with
    | .error e => .error e
    | .ok q =>
      match asNums vs with
      | .error e => .error e
      | .ok qs => .ok (q :: qs)

/-- Python `sum(c * p for c, p in zip(coefficients, recent_prices))`. -/
def sumTerms : List (JVal × JVal) → Except PyErr ℚ
  | [] => .ok 0
  | (c, p) :: rest =>
    match asNum c with
    | .error e => .error e
    | .ok cq =>
      match asNum p with
      | .error e => .error e
      | .ok pq =>
        match sumTerms rest with
        | .error e => .error e
        | .ok s => .ok (cq * pq + s)

/-- Python slice `xs[-n:]` for `n ≥ 1`: the trailing `n` elements (the
whole list when it is shorter). -/
def lastN {α : Type} (n : ℕ) (xs : List α) : List α :=
  xs.drop (xs.length - n)

/-- Best ask: `min(order_depth.sell_orders.keys())`, with a dummy value 0
on an empty book (the sources only evaluate it under a non-empty guard). -/
def bestAskD (order_depth : OrderDepth) : ℚ :=
  ((order_depth.sell_orders.map Prod.fst).min?).getD 0

/-- Best bid: `max(order_depth.buy_orders.keys())`, with a dummy value 0
on an empty book (the sources only evaluate it under a non-empty guard). -/
def bestBidD (order_depth : OrderDepth) : ℚ :=
  ((order_depth.buy_orders.map Prod.fst).max?).getD 0

/-- Mid-price policy of `Trader.run` (lines 26–34): average of best bid
and best ask when both sides quote, otherwise the non-empty side's best,
otherwise `none` (the `mid_price is None` sentinel). -/
def midPrice (order_depth : OrderDepth) : Option ℚ :=
  if order_depth.buy_orders ≠ [] ∧ order_depth.sell_orders ≠ [] then
    some ((bestBidD order_depth + bestAskD order_depth) / 2)
  else if order_depth.sell_orders ≠ [] then
    some (bestAskD order_depth)
  else if order_depth.buy_orders ≠ [] then
    some (bestBidD order_depth)
  else
    none

/-- Embedding of the `try/except` decode block of `compute_rainforest_orders`
(lines 69–74).  All of `json.loads`, the `in` check and the item
assignment are inside the `try`, so a parse failure, a `TypeError` from
`in` on a number, or a failed item assignment on a list/string all fall
back to the fresh default.  A list or string that happens to "contain"
the key survives as-is (and makes the later append raise). -/
def rfLoadHistory (trader_data : Blob) : JVal :=
  match trader_data with
  | none => .obj [("rainforest_prices", .arr [])]
  | some (.obj kvs) =>
    if (lookupKey "rainforest_prices" kvs).isSome then .obj kvs
    else .obj (kvs ++ [("rainforest_prices", .arr [])])
  | some (.arr xs) =>
    if jmemStr "rainforest_prices" xs then .arr xs
    else .obj [("rainforest_prices", .arr [])]
  | some (.str s) =>
    if strContains s "rainforest_prices" then .str s
    else .obj [("rainforest_prices", .arr [])]
  | some _ => .obj [("rainforest_prices", .arr [])]

/-- Rolling mean of the trailing window (line 83). -/
def rollingMean (recent_prices : List ℚ) (window_size : ℕ) : ℚ :=
  recent_prices.sum / window_size

/-- Population variance of the trailing window (the radicand of
line 85). -/
def rollingVar (recent_prices : List ℚ) (window_size : ℕ) : ℚ :=
  ((recent_prices.map (fun p => (p - rollingMean recent_prices window_size) ^ 2)).sum)
    / window_size

/-- Rolling population standard deviation (line 85, `** 0.5`). -/
noncomputable def rollingStd (recent_prices : List ℚ) (window_size : ℕ) : ℝ :=
  Real.sqrt ((rollingVar recent_prices window_size : ℚ) : ℝ)

/-- Z-score with the zero-std guard (line 88). -/
noncomputable def zScore (recent_prices : List ℚ) (mid_price : ℚ) (window_size : ℕ) : ℝ :=
  if rollingStd recent_prices window_size ≠ 0 then
    ((mid_price : ℝ) - ((rollingMean recent_prices window_size : ℚ) : ℝ))
      / rollingStd recent_prices window_size
  else 0

/-- Embedding of `compute_rainforest_orders` (lines 51–112): mean-reversion strategy.
The caller passes `window_size = 20` and `base_quantity = 10` (the
Python defaults). -/
noncomputable def compute_rainforest_orders (target_product : String)
    (order_depth : OrderDepth) (mid_price : ℚ) (trader_data : Blob)
    (window_size : ℕ) (base_quantity : ℤ) : Except PyErr (List Order × JVal) :=
  let history := rfLoadHistory trader_data
  match jAppendKey history "rainforest_prices" (.num mid_price) with
  | .error e => .error e
  | .ok (history', xs) =>
    if window_size ≤ xs.length then
      match asNums (lastN window_size xs) with
      | .error e => .error e
      | .ok recent_prices =>
        let z_score := zScore recent_prices mid_price window_size
        let scale_factor : ℤ := max 1 (Int.floor (|z_score| * 2))
        let order_quantity : ℤ := base_quantity * scale_factor
        let orders : List Order :=
          if z_score < -(3 / 2 : ℝ) ∧ order_depth.sell_orders ≠ [] then
            [{ symbol := target_product, price := bestAskD order_depth,
               quantity := (order_quantity : ℚ) }]
          else if (3 / 2 : ℝ) < z_score ∧ order_depth.buy_orders ≠ [] then
            [{ symbol := target_product, price := bestBidD order_depth,
               quantity := (-order_quantity : ℚ) }]
          else []
        .ok (orders, history')
    else
      .ok ([], history')

/-- The pre-trained AR intercept (line 152). -/
def mbIntercept : ℚ := 0.39903304835706876

/-- The pre-trained AR coefficients (line 153), applied to the most
recent `lag` prices in storage order (oldest of the slice first). -/
def mbCoeffs : List ℚ := [0.81988331, 0.1248814, 0.07095404, -0.01592438]

/-- The pre-trained AR parameters stored at first use by
`compute_model_based_orders` (lines 150–154). -/
def mbParamsDefault : JVal :=
  .obj [("intercept", .num mbIntercept),
        ("coefficients", .arr (mbCoeffs.map .num))]

/-- The deviation `predicted_price - mid_price` (lines 168–172) computed
by the AR model on a numeric window. -/
def mbDev (recent_prices : List ℚ) (mid_price : ℚ) : ℚ :=
  mbIntercept + (List.zipWith (fun c p => c * p) mbCoeffs recent_prices).sum - mid_price

/-- Embedding of `compute_model_based_orders` (lines 115–209):
autoregressive strategy.  Only `json.loads` is inside the `try`; the three
default-initialisations, the append and all arithmetic can raise.  The
caller passes `lag = 4`, `base_quantity = 10`, `threshold = 1`,
`max_position = 50` (the Python defaults). -/
def compute_model_based_orders (target_product : String)
    (order_depth : OrderDepth) (mid_price : ℚ) (trader_data : Blob)
    (lag : ℕ) (base_quantity : ℤ) (threshold : ℚ) (max_position : ℤ) :
    Except PyErr (List Order × JVal) :=
  let history0 : JVal :=
    match trader_data with
    | none => .obj []
    | some v => v
  match jSetDefault history0 "model_history" (.arr []) with
  | .error e => .error e
  | .ok history1 =>
  match jSetDefault history1 "position" (.num 0) with
  | .error e => .error e
  | .ok history2 =>
  match jSetDefault history2 "model_params" mbParamsDefault with
  | .error e => .error e
  | .ok history3 =>
  match jAppendKey history3 "model_history" (.num mid_price) with
  | .error e => .error e
  | .ok (history4, xs) =>
    if lag ≤ xs.length then
      match jGet history4 "model_params" with
      | .error e => .error e
      | .ok params =>
      match jGet params "intercept" with
      | .error e => .error e
      | .ok interceptJ =>
      match asNum interceptJ with
      | .error e => .error e
      | .ok intercept =>
      match jGet params "coefficients" with
      | .error e => .error e
      | .ok coefficientsJ =>
      match coefficientsJ with
      | .arr coefficients =>
        match sumTerms (coefficients.zip (lastN lag xs)) with
        | .error e => .error e
        | .ok acc =>
          let predicted_price := intercept + acc
          let deviation := predicted_price - mid_price
          if threshold < |deviation| then
            let order_quantity : ℤ :=
              min (Int.floor ((base_quantity : ℚ) * |deviation|)) max_position
            match jGet history4 "position" with
            | .error e => .error e
            | .ok positionJ =>
              if threshold < deviation ∧ order_depth.sell_orders ≠ [] then
                match asNum positionJ with
                | .error e => .error e
                | .ok current_position =>
                  let trade_size := (max_position : ℚ) - current_position
                  if 0 < trade_size then
                    .ok ([{ symbol := target_product,
                            price := bestAskD order_depth,
                            quantity := trade_size }],
                         .obj (updKey "position"
                            (.num (current_position + trade_size))
                            (match history4 with | .obj kvs => kvs | _ => [])))
                  else
                    .ok ([], history4)
              else if deviation < -threshold ∧ order_depth.buy_orders ≠ [] then
                match asNum positionJ with
                | .error e => .error e
                | .ok current_position =>
                  let trade_size := current_position - (-(max_position : ℚ))
                  if 0 < trade_size then
                    .ok ([{ symbol := target_product,
                            price := bestBidD order_depth,
                            quantity := -trade_size }],
                         .obj (updKey "position"
                            (.num (current_position - trade_size))
                            (match history4 with | .obj kvs => kvs | _ => [])))
                  else
                    .ok ([], history4)
              else
                .ok ([], history4)
          else
            .ok ([], history4)
      | _ => .error .typeError
    else
      .ok ([], history4)

/-- The single instrument `Trader.run` acts on (line 12). -/
def targetProduct : String := "RAINFOREST_RESIN"

/-- The initial `result` dict of `Trader.run` (lines 11–17): every
non-target instrument acknowledged with an empty order list, in snapshot
order. -/
def nonTargetResult (order_depths : List (String × OrderDepth)) :
    List (String × List Order) :=
  (order_depths.filter (fun p => p.1 ≠ targetProduct)).map (fun p => (p.1, []))

/-- Embedding of `Trader.run` (lines 7–47): the per-cycle orchestrator.  The snapshot
is the `state.order_depths` dict, the blob is `state.traderData`; the
result triple is (result dict, conversions, new traderData). -/
noncomputable def Trader.run (order_depths : List (String × OrderDepth))
    (traderData : Blob) :
    Except PyErr (List (String × List Order) × ℤ × Blob) :=
  let result := nonTargetResult order_depths
  match lookupKey targetProduct order_depths with
  | none => .ok (result, 1, traderData)
  | some order_depth =>
    match midPrice order_depth with
    | none => .ok (result ++ [(targetProduct, [])], 1, traderData)
    | some mid_price =>
      match compute_rainforest_orders targetProduct order_depth mid_price
          traderData 20 10 with
      | .error e => .error e
      | .ok (orders, new_trader_data) =>
        .ok (result ++ [(targetProduct, orders)], 1, some new_trader_data)

/-- Repeated invocation of a strategy, threading the dumped state of each
cycle into the next and concatenating the emitted orders. -/
def iterStrat (f : OrderDepth → ℚ → Blob → Except PyErr (List Order × JVal)) :
    List (OrderDepth × ℚ) → Blob → Except PyErr (List Order × Blob)
  | [], b => .ok ([], b)
  | (d, m) :: rest, b =>
    match f d m b with
    | .error e => .error e
    | .ok (os, st) =>
      match iterStrat f rest (some st) with
      | .error e => .error e
      | .ok (os', b') => .ok (os ++ os', b')

/-! ## Association-list and window lemmas -/

theorem lookupKey_append_some {α : Type} {k : String} {l l₂ : List (String × α)} {w : α}
    (h : lookupKey k l = some w) : lookupKey k (l ++ l₂) = some w := by
  induction l with
  | nil => simp [lookupKey] at h
  | cons p rest ih =>
    obtain ⟨k', v⟩ := p
    by_cases hk : k' = k
    · simp [lookupKey, hk] at h ⊢; exact h
    · simp [lookupKey, hk] at h ⊢; exact ih h

theorem lookupKey_append_ne {α : Type} {k k' : String} (v : α) (l : List (String × α))
    (h : k ≠ k') : lookupKey k (l ++ [(k', v)]) = lookupKey k l := by
  induction l with
  | nil =>
    have hne : ¬ k' = k := fun hh => h hh.symm
    simp [lookupKey, hne]
  | cons p rest ih =>
    obtain ⟨k₂, v₂⟩ := p
    by_cases hk : k₂ = k
    · simp [lookupKey, hk]
    · simp [lookupKey, hk]; exact ih

theorem lookupKey_updKey_self {α : Type} {k : String} {l : List (String × α)} {w : α}
    (v : α) (h : lookupKey k l = some w) :
    lookupKey k (updKey k v l) = some v := by
  induction l with
  | nil => simp [lookupKey] at h
  | cons p rest ih =>
    obtain ⟨k₂, v₂⟩ := p
    by_cases hk : k₂ = k
    · simp [lookupKey, updKey, hk]
    · simp [lookupKey, updKey, hk] at h ⊢; exact ih h

theorem lookupKey_updKey_ne {α : Type} {k k' : String} (v : α) (l : List (String × α))
    (h : k ≠ k') : lookupKey k (updKey k' v l) = lookupKey k l := by
  induction l with
  | nil => simp [lookupKey, updKey]
  | cons p rest ih =>
    obtain ⟨k₂, v₂⟩ := p
    by_cases hk : k₂ = k'
    · have hne : ¬ k' = k := fun hh => h hh.symm
      simp [lookupKey, updKey, hk, hne]
      exact ih
    · by_cases hk₂ : k₂ = k
      · simp [lookupKey, updKey, hk, hk₂, h]
      · simp [lookupKey, updKey, hk, hk₂]
        exact ih

theorem lookupKey_eq_none_iff {α : Type} {k : String} {l : List (String × α)} :
    lookupKey k l = none ↔ k ∉ l.map Prod.fst := by
  induction l with
  | nil => simp [lookupKey]
  | cons p rest ih =>
    obtain ⟨k₂, v₂⟩ := p
    by_cases hk : k₂ = k
    · simp [lookupKey, hk]
    · have hk' : ¬ k = k₂ := fun hh => hk hh.symm
      simp [lookupKey, hk, ih, hk']

theorem lastN_length {α : Type} (n : ℕ) (xs : List α) :
    (lastN n xs).length = min n xs.length := by
  simp [lastN]; omega

theorem lastN_map {α β : Type} (n : ℕ) (f : α → β) (xs : List α) :
    lastN n (xs.map f) = (lastN n xs).map f := by
  simp only [lastN, List.length_map]
  rw [← List.map_drop]

theorem lastN_full {α : Type} {n : ℕ} {xs : List α} (h : xs.length ≤ n) :
    lastN n xs = xs := by
  have : xs.length - n = 0 := by omega
  simp [lastN, this]

theorem lastN_concat {α : Type} {n : ℕ} {xs : List α} (y : α)
    (h1 : 1 ≤ n) (h2 : n ≤ xs.length + 1) :
    lastN n (xs ++ [y]) = lastN (n - 1) xs ++ [y] := by
  have harith : (xs ++ [y]).length - n = xs.length - (n - 1) := by
    simp only [List.length_append, List.length_singleton]
    omega
  have h0 : xs.length - (n - 1) - xs.length = 0 := by omega
  simp only [lastN, harith, List.drop_append_eq_append_drop, h0, List.drop_zero]

theorem lastN_lastN {α : Type} {m n : ℕ} (xs : List α) (h : m ≤ n) :
    lastN m (lastN n xs) = lastN m xs := by
  unfold lastN
  rw [List.length_drop, List.drop_drop]
  congr 1
  omega

theorem lastN_replicate {α : Type} {m n : ℕ} (p : α) (h : m ≤ n) :
    lastN m (List.replicate n p) = List.replicate m p := by
  unfold lastN
  rw [List.length_replicate, List.drop_replicate]
  congr 1
  omega

theorem asNums_map_num (qs : List ℚ) : asNums (qs.map .num) = .ok qs := by
  induction qs with
  | nil => rfl
  | cons q rest ih => simp [asNums, asNum, ih]

theorem sumTerms_map_num (cs ps : List ℚ) :
    sumTerms ((cs.map .num).zip (ps.map .num)) =
      .ok (List.zipWith (fun c p => c * p) cs ps).sum := by
  induction cs generalizing ps with
  | nil => rfl
  | cons c cs ih =>
    cases ps with
    | nil => rfl
    | cons p ps =>
      rw [List.map_cons, List.map_cons, List.zip_cons_cons]
      simp only [sumTerms, asNum, ih, List.zipWith_cons_cons, List.sum_cons]

/-! ## Evaluation lemmas for the two strategies on well-typed states -/

theorem jSetDefault_obj (kvs : List (String × JVal)) (k : String) (v : JVal) :
    jSetDefault (.obj kvs) k v =
      .ok (.obj (if (lookupKey k kvs).isSome then kvs else kvs ++ [(k, v)])) := by
  by_cases h : (lookupKey k kvs).isSome <;> simp [jSetDefault, jHasKey, h]

/-- The decision `compute_model_based_orders` takes once its state has
been decoded: expressed over the numeric window, the current position
and the already-updated history dict. -/
def mbDecision (d : OrderDepth) (m : ℚ) (recent : List ℚ) (q : ℚ) (len : ℕ)
    (kvs' : List (String × JVal)) : List Order × JVal :=
  if 4 ≤ len then
    if 1 < |mbDev recent m| then
      if 1 < mbDev recent m ∧ d.sell_orders ≠ [] then
        if 0 < 50 - q then
          ([{ symbol := targetProduct, price := bestAskD d, quantity := 50 - q }],
           .obj (updKey "position" (.num (q + (50 - q))) kvs'))
        else ([], .obj kvs')
      else if mbDev recent m < -1 ∧ d.buy_orders ≠ [] then
        if 0 < q + 50 then
          ([{ symbol := targetProduct, price := bestBidD d, quantity := -(q + 50) }],
           .obj (updKey "position" (.num (q - (q + 50))) kvs'))
        else ([], .obj kvs')
      else ([], .obj kvs')
    else ([], .obj kvs')
  else ([], .obj kvs')

theorem mb_eval (d : OrderDepth) (m : ℚ) (kvs : List (String × JVal))
    (qs : List ℚ) (q : ℚ)
    (hmh : lookupKey "model_history" kvs = some (.arr (qs.map .num)))
    (hpos : lookupKey "position" kvs = some (.num q))
    (hpar : lookupKey "model_params" kvs = some mbParamsDefault) :
    compute_model_based_orders targetProduct d m (some (.obj kvs)) 4 10 1 50 =
      .ok (mbDecision d m (lastN 4 (qs ++ [m])) q (qs ++ [m]).length
             (updKey "model_history" (.arr ((qs ++ [m]).map .num)) kvs)) := by
  have h1 : jSetDefault (.obj kvs) "model_history" (.arr []) = .ok (.obj kvs) := by
    simp [jSetDefault_obj, hmh]
  have h2 : jSetDefault (.obj kvs) "position" (.num 0) = .ok (.obj kvs) := by
    simp [jSetDefault_obj, hpos]
  have h3 : jSetDefault (.obj kvs) "model_params" mbParamsDefault = .ok (.obj kvs) := by
    simp [jSetDefault_obj, hpar]
  have h4 : jAppendKey (.obj kvs) "model_history" (.num m) =
      .ok (.obj (updKey "model_history" (.arr ((qs ++ [m]).map .num)) kvs),
           (qs ++ [m]).map .num) := by
    simp [jAppendKey, hmh, List.map_append]
  have h5 : lookupKey "model_params"
      (updKey "model_history" (.arr ((qs ++ [m]).map .num)) kvs) = some mbParamsDefault := by
    rw [lookupKey_updKey_ne _ _ (by decide)]; exact hpar
  have h6 : lookupKey "position"
      (updKey "model_history" (.arr ((qs ++ [m]).map .num)) kvs) = some (.num q) := by
    rw [lookupKey_updKey_ne _ _ (by decide)]; exact hpos
  have hterms : sumTerms ((mbCoeffs.map .num).zip (lastN 4 ((qs ++ [m]).map .num))) =
      .ok (List.zipWith (fun c p => c * p) mbCoeffs (lastN 4 (qs ++ [m]))).sum := by
    rw [lastN_map, sumTerms_map_num]
  have hgetObj : ∀ (l : List (String × JVal)) (k : String), jGet (.obj l) k =
      (match lookupKey k l with
       | some v => Except.ok v
       | none => Except.error .keyError) := fun _ _ => rfl
  have h7 : jGet mbParamsDefault "intercept" = .ok (.num mbIntercept) := by rfl
  have h8 : jGet mbParamsDefault "coefficients" = .ok (.arr (mbCoeffs.map .num)) := by rfl
  simp only [compute_model_based_orders, h1, h2, h3, h4]
  simp only [hgetObj, h5, h6, h7, h8, asNum, hterms, List.length_map,
    mbDecision, mbDev, Int.cast_ofNat]
  norm_num
  split_ifs <;> rfl

/-- The order list `compute_rainforest_orders` emits once the window
statistics are available (lines 97–109), as a function of the numeric
window. -/
noncomputable def rfOrders (d : OrderDepth) (m : ℚ) (recent : List ℚ) : List Order :=
  if zScore recent m 20 < -(3 / 2 : ℝ) ∧ d.sell_orders ≠ [] then
    [{ symbol := targetProduct, price := bestAskD d,
       quantity := ((10 * max 1 (Int.floor (|zScore recent m 20| * 2)) : ℤ) : ℚ) }]
  else if (3 / 2 : ℝ) < zScore recent m 20 ∧ d.buy_orders ≠ [] then
    [{ symbol := targetProduct, price := bestBidD d,
       quantity := -((10 * max 1 (Int.floor (|zScore recent m 20| * 2)) : ℤ) : ℚ) }]
  else []

/-- The behaviour of `compute_rainforest_orders` after the history list
has been appended to: trade only from a full window, with the dumped
state `kvs'`. -/
noncomputable def rfDecision (d : OrderDepth) (m : ℚ) (xs : List JVal)
    (kvs' : List (String × JVal)) : Except PyErr (List Order × JVal) :=
  if 20 ≤ xs.length + 1 then
    match asNums (lastN 20 (xs ++ [.num m])) with
    | .error e => .error e
    | .ok recent => .ok (rfOrders d m recent, .obj kvs')
  else .ok ([], .obj kvs')

theorem rf_eval (d : OrderDepth) (m : ℚ) (kvs : List (String × JVal)) (xs : List JVal)
    (hrf : lookupKey "rainforest_prices" kvs = some (.arr xs)) :
    compute_rainforest_orders targetProduct d m (some (.obj kvs)) 20 10 =
      rfDecision d m xs (updKey "rainforest_prices" (.arr (xs ++ [.num m])) kvs) := by
  have hload : rfLoadHistory (some (.obj kvs)) = .obj kvs := by
    simp [rfLoadHistory, hrf]
  have happ : jAppendKey (.obj kvs) "rainforest_prices" (.num m) =
      .ok (.obj (updKey "rainforest_prices" (.arr (xs ++ [.num m])) kvs), xs ++ [.num m]) := by
    simp [jAppendKey, hrf]
  simp only [compute_rainforest_orders, hload, happ, rfDecision, rfOrders,
    List.length_append, List.length_singleton]

theorem lookupKey_append_none {α : Type} {k : String} {l l₂ : List (String × α)}
    (h : lookupKey k l = none) : lookupKey k (l ++ l₂) = lookupKey k l₂ := by
  induction l with
  | nil => simp
  | cons p rest ih =>
    obtain ⟨k₂, v₂⟩ := p
    by_cases hk : k₂ = k
    · simp [lookupKey, hk] at h
    · simp [lookupKey, hk] at h ⊢
      exact ih h

/-! ## Claim theorems -/

/-- Claim C1, amended.  On a blob that `json.loads` rejects, both
strategy entry points fall back to a fresh default history, append the
mid-price, emit nothing (the fresh history is below the lookback) and
return normally.  (The original claim extends this to valid JSON that is
not an object, where `compute_model_based_orders` in fact raises: its
membership test and item assignment sit outside the `try`.) -/
theorem claim1_amended (d : OrderDepth) (m : ℚ) :
    compute_rainforest_orders targetProduct d m none 20 10 =
      .ok ([], .obj [("rainforest_prices", .arr [.num m])]) ∧
    compute_model_based_orders targetProduct d m none 4 10 1 50 =
      .ok ([], .obj [("model_history", .arr [.num m]), ("position", .num 0),
                     ("model_params", mbParamsDefault)]) := by
  constructor
  · simp [compute_rainforest_orders, rfLoadHistory, jAppendKey, lookupKey, updKey]
  · simp [compute_model_based_orders, jSetDefault, jHasKey, lookupKey, jAppendKey, updKey]

/-- Claim C1, counterexample.  The blob `"[]"` is valid JSON but not an
object; `compute_model_based_orders` raises a `TypeError` on it (the
`"model_history" not in history` item assignment on a list), so the
entry points do not return normally on every blob. -/
theorem claim1_counterexample :
    compute_model_based_orders targetProduct ⟨[], []⟩ 5 (some (.arr [])) 4 10 1 50 =
      .error .typeError := by
  rfl

/-- Claim C10.  When the target instrument is missing from the snapshot,
or present with both book sides empty, `Trader.run` returns the caller's
`traderData` blob unchanged (no history append, no state rewrite), along
with conversions 1 and empty order lists. -/
theorem claim10 (order_depths : List (String × OrderDepth)) (traderData : Blob) :
    (lookupKey targetProduct order_depths = none →
      Trader.run order_depths traderData =
        .ok (nonTargetResult order_depths, 1, traderData)) ∧
    (∀ d, lookupKey targetProduct order_depths = some d →
      d.buy_orders = [] → d.sell_orders = [] →
      Trader.run order_depths traderData =
        .ok (nonTargetResult order_depths ++ [(targetProduct, [])], 1, traderData)) := by
  constructor
  · intro h
    simp [Trader.run, h]
  · intro d h hb hs
    simp [Trader.run, h, midPrice, hb, hs]

/-- Claim C6.  The mid-price estimate follows the four-case policy in
order: both sides quoted → midpoint of best bid and best ask; only asks →
minimum ask; only bids → maximum bid; both empty → unknown, in which case
the orchestrator returns the target with an empty order list (and every
other snapshot instrument also maps to an empty list). -/
theorem claim6 :
    (∀ (d : OrderDepth) (b a : ℚ),
      (d.buy_orders.map Prod.fst).max? = some b →
      (d.sell_orders.map Prod.fst).min? = some a →
      midPrice d = some ((b + a) / 2)) ∧
    (∀ (d : OrderDepth) (a : ℚ), d.buy_orders = [] →
      (d.sell_orders.map Prod.fst).min? = some a → midPrice d = some a) ∧
    (∀ (d : OrderDepth) (b : ℚ), d.sell_orders = [] →
      (d.buy_orders.map Prod.fst).max? = some b → midPrice d = some b) ∧
    (∀ d : OrderDepth, d.buy_orders = [] → d.sell_orders = [] → midPrice d = none) ∧
    (∀ (order_depths : List (String × OrderDepth)) (traderData : Blob) (d : OrderDepth),
      lookupKey targetProduct order_depths = some d →
      d.buy_orders = [] → d.sell_orders = [] →
      Trader.run order_depths traderData =
        .ok (nonTargetResult order_depths ++ [(targetProduct, [])], 1, traderData)) ∧
    (∀ (order_depths : List (String × OrderDepth)) (pr : String × List Order),
      pr ∈ nonTargetResult order_depths → pr.2 = []) := by
  refine ⟨?_, ?_, ?_, ?_, ?_, ?_⟩
  · intro d b a hb ha
    have hbne : d.buy_orders ≠ [] := by
      intro he; rw [he] at hb; simp at hb
    have hane : d.sell_orders ≠ [] := by
      intro he; rw [he] at ha; simp at ha
    simp [midPrice, hbne, hane, bestBidD, bestAskD, hb, ha]
  · intro d a hb ha
    have hane : d.sell_orders ≠ [] := by
      intro he; rw [he] at ha; simp at ha
    simp [midPrice, hb, hane, bestAskD, ha]
  · intro d b hs hb
    have hbne : d.buy_orders ≠ [] := by
      intro he; rw [he] at hb; simp at hb
    simp [midPrice, hs, hbne, bestBidD, hb]
  · intro d hb hs
    simp [midPrice, hb, hs]
  · intro order_depths traderData d h hb hs
    simp [Trader.run, h, midPrice, hb, hs]
  · intro order_depths pr hpr
    simp only [nonTargetResult, List.mem_map] at hpr
    obtain ⟨p, _, hp⟩ := hpr
    rw [← hp]

theorem mb_short (d : OrderDepth) (m : ℚ) (kvs : List (String × JVal)) (xs : List JVal)
    (hmh : lookupKey "model_history" kvs = some (.arr xs))
    (hlen : xs.length + 1 < 4) :
    ∃ kvs₂, compute_model_based_orders targetProduct d m (some (.obj kvs)) 4 10 1 50 =
        .ok ([], .obj kvs₂) ∧
      lookupKey "model_history" kvs₂ = some (.arr (xs ++ [.num m])) ∧
      (∀ k, k ≠ "model_history" → k ≠ "position" → k ≠ "model_params" →
        lookupKey k kvs₂ = lookupKey k kvs) := by
  have h1 : jSetDefault (.obj kvs) "model_history" (.arr []) = .ok (.obj kvs) := by
    simp [jSetDefault_obj, hmh]
  set kvs1 := if (lookupKey "position" kvs).isSome then kvs
      else kvs ++ [("position", .num 0)] with hk1
  have h2 : jSetDefault (.obj kvs) "position" (.num 0) = .ok (.obj kvs1) :=
    jSetDefault_obj kvs "position" (.num 0)
  have hmh1 : lookupKey "model_history" kvs1 = some (.arr xs) := by
    rw [hk1]; split
    · exact hmh
    · exact lookupKey_append_some hmh
  have hpres1 : ∀ k, k ≠ "position" → lookupKey k kvs1 = lookupKey k kvs := by
    intro k hne
    rw [hk1]; split
    · rfl
    · exact lookupKey_append_ne _ _ hne
  set kvs2 := if (lookupKey "model_params" kvs1).isSome then kvs1
      else kvs1 ++ [("model_params", mbParamsDefault)] with hk2
  have h3 : jSetDefault (.obj kvs1) "model_params" mbParamsDefault = .ok (.obj kvs2) :=
    jSetDefault_obj kvs1 "model_params" mbParamsDefault
  have hmh2 : lookupKey "model_history" kvs2 = some (.arr xs) := by
    rw [hk2]; split
    · exact hmh1
    · exact lookupKey_append_some hmh1
  have hpres2 : ∀ k, k ≠ "model_params" → lookupKey k kvs2 = lookupKey k kvs1 := by
    intro k hne
    rw [hk2]; split
    · rfl
    · exact lookupKey_append_ne _ _ hne
  have happ : jAppendKey (.obj kvs2) "model_history" (.num m) =
      .ok (.obj (updKey "model_history" (.arr (xs ++ [.num m])) kvs2), xs ++ [.num m]) := by
    simp [jAppendKey, hmh2]
  refine ⟨updKey "model_history" (.arr (xs ++ [.num m])) kvs2, ?_, ?_, ?_⟩
  · have hnotlen : ¬ (4 ≤ (xs ++ [JVal.num m]).length) := by
      simp only [List.length_append, List.length_singleton]
      omega
    simp only [compute_model_based_orders, h1, h2, h3, happ, hnotlen, if_false]
  · exact lookupKey_updKey_self _ hmh2
  · intro k hk₁ hk₂ hk₃
    rw [lookupKey_updKey_ne _ _ hk₁, hpres2 k hk₃, hpres1 k hk₂]

/-- Claim C8.  When the history is still shorter than the lookback after
appending the current mid-price (window 20 for mean-reversion, lag 4 for
the AR strategy), no order is emitted whatever the book contains, and the
returned state holds the history with the new price appended. -/
theorem claim8 :
    (∀ (d : OrderDepth) (m : ℚ) (kvs : List (String × JVal)) (xs : List JVal),
      lookupKey "rainforest_prices" kvs = some (.arr xs) →
      xs.length + 1 < 20 →
      compute_rainforest_orders targetProduct d m (some (.obj kvs)) 20 10 =
        .ok ([], .obj (updKey "rainforest_prices" (.arr (xs ++ [.num m])) kvs)) ∧
      lookupKey "rainforest_prices"
          (updKey "rainforest_prices" (.arr (xs ++ [.num m])) kvs) =
        some (.arr (xs ++ [.num m]))) ∧
    (∀ (d : OrderDepth) (m : ℚ) (kvs : List (String × JVal)) (xs : List JVal),
      lookupKey "model_history" kvs = some (.arr xs) →
      xs.length + 1 < 4 →
      ∃ kvs₂, compute_model_based_orders targetProduct d m (some (.obj kvs)) 4 10 1 50 =
          .ok ([], .obj kvs₂) ∧
        lookupKey "model_history" kvs₂ = some (.arr (xs ++ [.num m]))) := by
  constructor
  · intro d m kvs xs hrf hlen
    refine ⟨?_, lookupKey_updKey_self _ hrf⟩
    rw [rf_eval d m kvs xs hrf]
    have hnotlen : ¬ (20 ≤ xs.length + 1) := by omega
    simp only [rfDecision, hnotlen, if_false]
  · intro d m kvs xs hmh hlen
    obtain ⟨kvs₂, hcall, hlook, _⟩ := mb_short d m kvs xs hmh hlen
    exact ⟨kvs₂, hcall, hlook⟩

/-- Claim C8, witness: a three-price mean-reversion history and a
two-price AR history, both still short of their lookback. -/
theorem claim8_witness :
    (lookupKey "rainforest_prices" [("rainforest_prices", JVal.arr [.num 3])] =
        some (.arr [.num 3]) ∧
      compute_rainforest_orders targetProduct ⟨[(9, 2)], [(11, 3)]⟩ 5
          (some (.obj [("rainforest_prices", .arr [.num 3])])) 20 10 =
        .ok ([], .obj [("rainforest_prices", .arr [.num 3, .num 5])])) ∧
    (lookupKey "model_history" [("model_history", JVal.arr [.num 3, .num 4])] =
        some (.arr [.num 3, .num 4]) ∧
      ∃ kvs₂, compute_model_based_orders targetProduct ⟨[(9, 2)], [(11, 3)]⟩ 5
          (some (.obj [("model_history", .arr [.num 3, .num 4])])) 4 10 1 50 =
          .ok ([], .obj kvs₂) ∧
        lookupKey "model_history" kvs₂ = some (.arr [.num 3, .num 4, .num 5])) := by
  constructor
  · refine ⟨by rfl, ?_⟩
    have h := (claim8.1 ⟨[(9, 2)], [(11, 3)]⟩ 5 [("rainforest_prices", .arr [.num 3])]
      [.num 3] (by rfl) (by decide)).1
    rw [h]
    rfl
  · refine ⟨by rfl, ?_⟩
    exact claim8.2 ⟨[(9, 2)], [(11, 3)]⟩ 5 [("model_history", .arr [.num 3, .num 4])]
      [.num 3, .num 4] (by rfl) (by decide)

/-- Claim C4.  In the AR strategy, a deviation exactly equal to the
threshold 1.0 emits no order and leaves the persisted position
unchanged, while any deviation strictly above the threshold with
position 0, `max_position = 50` and a non-empty ask side emits exactly
one BUY of 50 at the minimum ask and sets the position to 50 — the
`base_quantity * abs(deviation)` quantity plays no part in the size. -/
theorem claim4 :
    (∀ (d : OrderDepth) (m : ℚ) (kvs : List (String × JVal)) (qs : List ℚ) (q : ℚ),
      lookupKey "model_history" kvs = some (.arr (qs.map .num)) →
      lookupKey "position" kvs = some (.num q) →
      lookupKey "model_params" kvs = some mbParamsDefault →
      mbDev (lastN 4 (qs ++ [m])) m = 1 →
      ∃ kvs₂, compute_model_based_orders targetProduct d m (some (.obj kvs)) 4 10 1 50 =
          .ok ([], .obj kvs₂) ∧ lookupKey "position" kvs₂ = some (.num q)) ∧
    (∀ (d : OrderDepth) (m : ℚ) (kvs : List (String × JVal)) (qs : List ℚ),
      lookupKey "model_history" kvs = some (.arr (qs.map .num)) →
      lookupKey "position" kvs = some (.num 0) →
      lookupKey "model_params" kvs = some mbParamsDefault →
      4 ≤ qs.length + 1 →
      1 < mbDev (lastN 4 (qs ++ [m])) m →
      d.sell_orders ≠ [] →
      ∃ kvs₂, compute_model_based_orders targetProduct d m (some (.obj kvs)) 4 10 1 50 =
          .ok ([{ symbol := targetProduct, price := bestAskD d, quantity := 50 }],
               .obj kvs₂) ∧
        lookupKey "position" kvs₂ = some (.num 50)) := by
  constructor
  · intro d m kvs qs q hmh hpos hpar hdev
    rw [mb_eval d m kvs qs q hmh hpos hpar]
    have habs : ¬ (1 < |mbDev (lastN 4 (qs ++ [m])) m|) := by
      rw [hdev]; norm_num
    refine ⟨updKey "model_history" (.arr ((qs ++ [m]).map .num)) kvs, ?_, ?_⟩
    · simp only [mbDecision, habs, if_false, ite_self]
    · rw [lookupKey_updKey_ne _ _ (by decide)]
      exact hpos
  · intro d m kvs qs hmh hpos hpar hlen hdev hask
    rw [mb_eval d m kvs qs 0 hmh hpos hpar]
    have hlen' : 4 ≤ (qs ++ [m]).length := by
      simp only [List.length_append, List.length_singleton]
      omega
    have habs : 1 < |mbDev (lastN 4 (qs ++ [m])) m| :=
      lt_of_lt_of_le hdev (le_abs_self _)
    refine ⟨updKey "position" (.num (0 + (50 - 0)))
        (updKey "model_history" (.arr ((qs ++ [m]).map .num)) kvs), ?_, ?_⟩
    · simp only [mbDecision, hlen', if_true, habs, hdev, hask]
      norm_num
      intro h
      exact absurd h hask
    · have h1 : lookupKey "position"
          (updKey "model_history" (.arr ((qs ++ [m]).map .num)) kvs) = some (.num 0) := by
        rw [lookupKey_updKey_ne _ _ (by decide)]
        exact hpos
      have h2 := lookupKey_updKey_self (k := "position") (.num (0 + (50 - 0))) h1
      rw [h2]
      norm_num

/-- Claim C4, witness: with history `[x₀, 0, 0]` and mid-price 0 where
`x₀ = (1 - intercept)/c₀`, the deviation is exactly 1 and nothing is
traded from position 7; with history `[10, 0, 0]` the deviation exceeds
1 and a BUY of 50 is emitted from position 0. -/
theorem claim4_witness :
    (mbDev (lastN 4 ([(60096695164293124 : ℚ) / 81988331000000000, 0, 0] ++ [0])) 0 = 1 ∧
      ∃ kvs₂, compute_model_based_orders targetProduct ⟨[(9, 1)], [(11, 1)]⟩ 0
          (some (.obj [("model_history",
              .arr ([(60096695164293124 : ℚ) / 81988331000000000, 0, 0].map .num)),
            ("position", .num 7), ("model_params", mbParamsDefault)])) 4 10 1 50 =
          .ok ([], .obj kvs₂) ∧ lookupKey "position" kvs₂ = some (.num 7)) ∧
    (1 < mbDev (lastN 4 ([(10 : ℚ), 0, 0] ++ [0])) 0 ∧
      ∃ kvs₂, compute_model_based_orders targetProduct ⟨[(9, 1)], [(11, 1)]⟩ 0
          (some (.obj [("model_history", .arr ([(10 : ℚ), 0, 0].map .num)),
            ("position", .num 0), ("model_params", mbParamsDefault)])) 4 10 1 50 =
          .ok ([{ symbol := targetProduct, price := bestAskD ⟨[(9, 1)], [(11, 1)]⟩,
                  quantity := 50 }], .obj kvs₂) ∧
        lookupKey "position" kvs₂ = some (.num 50)) :=
  ⟨⟨by norm_num [mbDev, mbCoeffs, mbIntercept, lastN, List.zipWith_cons_cons, List.sum_cons],
    claim4.1 ⟨[(9, 1)], [(11, 1)]⟩ 0 _ [(60096695164293124 : ℚ) / 81988331000000000, 0, 0] 7
      (by rfl) (by rfl) (by rfl)
      (by norm_num [mbDev, mbCoeffs, mbIntercept, lastN, List.zipWith_cons_cons,
            List.sum_cons])⟩,
   ⟨by norm_num [mbDev, mbCoeffs, mbIntercept, lastN, List.zipWith_cons_cons, List.sum_cons],
    claim4.2 ⟨[(9, 1)], [(11, 1)]⟩ 0 _ [(10 : ℚ), 0, 0]
      (by rfl) (by rfl) (by rfl) (by decide)
      (by norm_num [mbDev, mbCoeffs, mbIntercept, lastN, List.zipWith_cons_cons,
            List.sum_cons])
      (by decide)⟩⟩

theorem zScore_mean100_var1 (recent : List ℚ)
    (hmean : rollingMean recent 20 = 100) (hvar : rollingVar recent 20 = 1) :
    zScore recent 97 20 = -3 := by
  have hstd : rollingStd recent 20 = 1 := by
    rw [rollingStd, hvar]
    norm_num
  rw [zScore, hstd, hmean]
  norm_num

/-- Claim C5.  When the trailing 20-price window has arithmetic mean 100
and population variance 1 (hence standard deviation 1) and the current
mid-price is 97, the z-score is −3, so the scale factor is 6 and a
single BUY of 6 × 10 = 60 at the best ask is emitted. -/
theorem claim5 (d : OrderDepth) (kvs : List (String × JVal)) (qs : List ℚ)
    (hrf : lookupKey "rainforest_prices" kvs = some (.arr (qs.map .num)))
    (hlen : 20 ≤ qs.length + 1)
    (hmean : rollingMean (lastN 20 (qs ++ [97])) 20 = 100)
    (hvar : rollingVar (lastN 20 (qs ++ [97])) 20 = 1)
    (hask : d.sell_orders ≠ []) :
    zScore (lastN 20 (qs ++ [97])) 97 20 = -3 ∧
    compute_rainforest_orders targetProduct d 97 (some (.obj kvs)) 20 10 =
      .ok ([{ symbol := targetProduct, price := bestAskD d, quantity := 60 }],
           .obj (updKey "rainforest_prices" (.arr ((qs ++ [97]).map .num)) kvs)) := by
  have hz : zScore (lastN 20 (qs ++ [97])) 97 20 = -3 :=
    zScore_mean100_var1 _ hmean hvar
  refine ⟨hz, ?_⟩
  rw [rf_eval d 97 kvs (qs.map .num) hrf]
  have hxs : (qs.map JVal.num) ++ [JVal.num 97] = (qs ++ [97]).map JVal.num := by
    simp
  have hlen' : 20 ≤ (qs.map JVal.num).length + 1 := by
    simpa using hlen
  have hfloor : ⌊|(-3 : ℝ)| * 2⌋ = (6 : ℤ) := by
    have h6 : |(-3 : ℝ)| * 2 = ((6 : ℤ) : ℝ) := by norm_num
    rw [h6, Int.floor_intCast]
  simp only [rfDecision, hlen', if_true, hxs, lastN_map, asNums_map_num, rfOrders, hz,
    hfloor]
  have hcond : (-3 : ℝ) < -(3 / 2) ∧ d.sell_orders ≠ [] := ⟨by norm_num, hask⟩
  simp only [hcond, and_self, if_true, hask]
  norm_num
  exact hask

/-- Claim C5, witness: the 20-price window of fourteen 100s together
with 101, 101, 101, 102, 98 and the final 97 has mean 100 and
population variance 1. -/
theorem claim5_witness :
    rollingMean (lastN 20 ((List.replicate 14 (100 : ℚ) ++ [101, 101, 101, 102, 98]) ++ [97]))
        20 = 100 ∧
    rollingVar (lastN 20 ((List.replicate 14 (100 : ℚ) ++ [101, 101, 101, 102, 98]) ++ [97]))
        20 = 1 ∧
    zScore (lastN 20 ((List.replicate 14 (100 : ℚ) ++ [101, 101, 101, 102, 98]) ++ [97]))
        97 20 = -3 ∧
    compute_rainforest_orders targetProduct ⟨[(96, 5)], [(98, 5)]⟩ 97
        (some (.obj [("rainforest_prices",
          .arr ((List.replicate 14 (100 : ℚ) ++ [101, 101, 101, 102, 98]).map .num))])) 20 10 =
      .ok ([{ symbol := targetProduct, price := bestAskD ⟨[(96, 5)], [(98, 5)]⟩,
              quantity := 60 }],
           .obj (updKey "rainforest_prices"
             (.arr (((List.replicate 14 (100 : ℚ) ++ [101, 101, 101, 102, 98]) ++ [97]).map .num))
             [("rainforest_prices",
               .arr ((List.replicate 14 (100 : ℚ) ++ [101, 101, 101, 102, 98]).map .num))])) := by
  have hmean : rollingMean
      (lastN 20 ((List.replicate 14 (100 : ℚ) ++ [101, 101, 101, 102, 98]) ++ [97])) 20 = 100 := by
    norm_num [lastN, rollingMean, List.length_append, List.length_replicate,
      List.sum_append, List.sum_replicate, nsmul_eq_mul]
  have hvar : rollingVar
      (lastN 20 ((List.replicate 14 (100 : ℚ) ++ [101, 101, 101, 102, 98]) ++ [97])) 20 = 1 := by
    norm_num [lastN, rollingVar, rollingMean, List.length_append, List.length_replicate,
      List.sum_append, List.sum_replicate, nsmul_eq_mul, List.map_append, List.map_replicate]
  have h := claim5 ⟨[(96, 5)], [(98, 5)]⟩
    [("rainforest_prices",
      .arr ((List.replicate 14 (100 : ℚ) ++ [101, 101, 101, 102, 98]).map .num))]
    (List.replicate 14 (100 : ℚ) ++ [101, 101, 101, 102, 98])
    (by rfl) (by simp) hmean hvar (by decide)
  exact ⟨hmean, hvar, h.1, h.2⟩

/-- The mean-reversion strategy exactly as `Trader.run` invokes it
(window 20, base quantity 10). -/
noncomputable def rfStrat (d : OrderDepth) (m : ℚ) (b : Blob) :
    Except PyErr (List Order × JVal) :=
  compute_rainforest_orders targetProduct d m b 20 10

/-- The AR strategy at its default parameters (lag 4, base quantity 10,
threshold 1, max position 50). -/
def mbStrat (d : OrderDepth) (m : ℚ) (b : Blob) :
    Except PyErr (List Order × JVal) :=
  compute_model_based_orders targetProduct d m b 4 10 1 50

theorem lastN_flat_append {α : Type} {n : ℕ} (p : α) (qs : List α)
    (hn : 1 ≤ n) (hflat : lastN n qs = List.replicate n p) (hlen : n ≤ qs.length) :
    lastN n (qs ++ [p]) = List.replicate n p := by
  rw [lastN_concat p hn (by omega)]
  have hm : lastN (n - 1) qs = List.replicate (n - 1) p := by
    have h := lastN_lastN (m := n - 1) (n := n) qs (by omega)
    rw [← h, hflat, lastN_replicate p (by omega)]
  rw [hm, ← List.replicate_succ']
  congr 1
  omega

theorem zScore_flat (p : ℚ) : zScore (List.replicate 20 p) p 20 = 0 := by
  have hmean : rollingMean (List.replicate 20 p) 20 = p := by
    rw [rollingMean, List.sum_replicate, nsmul_eq_mul]
    push_cast
    ring
  have hvar : rollingVar (List.replicate 20 p) 20 = 0 := by
    rw [rollingVar, hmean, List.map_replicate, List.sum_replicate]
    simp
  have hstd : rollingStd (List.replicate 20 p) 20 = 0 := by
    rw [rollingStd, hvar]
    norm_num
  rw [zScore, hstd]
  simp

theorem rf_flat_step (d : OrderDepth) (p : ℚ) (kvs : List (String × JVal)) (qs : List ℚ)
    (hrf : lookupKey "rainforest_prices" kvs = some (.arr (qs.map .num)))
    (hflat : lastN 20 qs = List.replicate 20 p) (hlen : 20 ≤ qs.length) :
    rfStrat d p (some (.obj kvs)) =
      .ok ([], .obj (updKey "rainforest_prices" (.arr ((qs ++ [p]).map .num)) kvs)) := by
  rw [rfStrat, rf_eval d p kvs (qs.map .num) hrf]
  have hlen' : 20 ≤ (qs.map JVal.num).length + 1 := by
    simp only [List.length_map]
    omega
  have hxs : (qs.map JVal.num) ++ [JVal.num p] = (qs ++ [p]).map JVal.num := by simp
  have hlast : lastN 20 (qs ++ [p]) = List.replicate 20 p :=
    lastN_flat_append p qs (by norm_num) hflat hlen
  simp only [rfDecision, hlen', if_true, hxs, lastN_map, asNums_map_num, rfOrders, hlast,
    zScore_flat]
  norm_num

theorem mb_flat_step (d : OrderDepth) (p : ℚ) (kvs : List (String × JVal))
    (qs : List ℚ) (q : ℚ)
    (hmh : lookupKey "model_history" kvs = some (.arr (qs.map .num)))
    (hpos : lookupKey "position" kvs = some (.num q))
    (hpar : lookupKey "model_params" kvs = some mbParamsDefault)
    (hflat : lastN 4 qs = List.replicate 4 p) (hlen : 4 ≤ qs.length)
    (hdev : |mbDev (List.replicate 4 p) p| ≤ 1) :
    mbStrat d p (some (.obj kvs)) =
      .ok ([], .obj (updKey "model_history" (.arr ((qs ++ [p]).map .num)) kvs)) := by
  rw [mbStrat, mb_eval d p kvs qs q hmh hpos hpar]
  have hlast : lastN 4 (qs ++ [p]) = List.replicate 4 p :=
    lastN_flat_append p qs (by norm_num) hflat hlen
  have habs : ¬ (1 < |mbDev (lastN 4 (qs ++ [p])) p|) := by
    rw [hlast]
    exact not_lt.mpr hdev
  have hlen' : 4 ≤ (qs ++ [p]).length := by
    simp only [List.length_append, List.length_singleton]
    omega
  simp only [mbDecision, hlen', if_true, habs, if_false]

/-- Claim C2, amended.  After the window is full of a constant price
`p`, repeated invocation with mid-price `p` emits no order and leaves
any persisted position untouched, for any number of repetitions — for
the mean-reversion strategy at every `p` (the flat window forces z = 0),
and for the AR strategy whenever the model's deviation on the flat
window stays within the threshold (`|mbDev| ≤ 1`; a constant price does
not make the AR deviation zero, so this proviso is necessary). -/
theorem claim2_amended :
    (∀ (n : ℕ) (d : OrderDepth) (p : ℚ) (kvs : List (String × JVal)) (qs : List ℚ),
      lookupKey "rainforest_prices" kvs = some (.arr (qs.map .num)) →
      lastN 20 qs = List.replicate 20 p →
      20 ≤ qs.length →
      ∃ kvs₂, iterStrat rfStrat (List.replicate n (d, p)) (some (.obj kvs)) =
          .ok ([], some (.obj kvs₂)) ∧
        lookupKey "position" kvs₂ = lookupKey "position" kvs) ∧
    (∀ (n : ℕ) (d : OrderDepth) (p : ℚ) (kvs : List (String × JVal)) (qs : List ℚ) (q : ℚ),
      lookupKey "model_history" kvs = some (.arr (qs.map .num)) →
      lookupKey "position" kvs = some (.num q) →
      lookupKey "model_params" kvs = some mbParamsDefault →
      lastN 4 qs = List.replicate 4 p →
      4 ≤ qs.length →
      |mbDev (List.replicate 4 p) p| ≤ 1 →
      ∃ kvs₂, iterStrat mbStrat (List.replicate n (d, p)) (some (.obj kvs)) =
          .ok ([], some (.obj kvs₂)) ∧
        lookupKey "position" kvs₂ = some (.num q)) := by
  constructor
  · intro n
    induction n with
    | zero =>
      intro d p kvs qs _ _ _
      exact ⟨kvs, rfl, rfl⟩
    | succ n ih =>
      intro d p kvs qs hrf hflat hlen
      have hstep := rf_flat_step d p kvs qs hrf hflat hlen
      have hrf' : lookupKey "rainforest_prices"
          (updKey "rainforest_prices" (.arr ((qs ++ [p]).map .num)) kvs) =
            some (.arr ((qs ++ [p]).map .num)) :=
        lookupKey_updKey_self _ hrf
      have hflat' : lastN 20 (qs ++ [p]) = List.replicate 20 p :=
        lastN_flat_append p qs (by norm_num) hflat hlen
      have hlen' : 20 ≤ (qs ++ [p]).length := by
        simp only [List.length_append, List.length_singleton]
        omega
      obtain ⟨kvs₂, hiter, hpos⟩ := ih d p _ (qs ++ [p]) hrf' hflat' hlen'
      refine ⟨kvs₂, ?_, ?_⟩
      · rw [List.replicate_succ]
        simp only [iterStrat, hstep, hiter, List.nil_append]
      · rw [hpos]
        exact lookupKey_updKey_ne _ _ (by decide)
  · intro n
    induction n with
    | zero =>
      intro d p kvs qs q _ hpos _ _ _ _
      exact ⟨kvs, rfl, hpos⟩
    | succ n ih =>
      intro d p kvs qs q hmh hpos hpar hflat hlen hdev
      have hstep := mb_flat_step d p kvs qs q hmh hpos hpar hflat hlen hdev
      have hmh' : lookupKey "model_history"
          (updKey "model_history" (.arr ((qs ++ [p]).map .num)) kvs) =
            some (.arr ((qs ++ [p]).map .num)) :=
        lookupKey_updKey_self _ hmh
      have hpos' : lookupKey "position"
          (updKey "model_history" (.arr ((qs ++ [p]).map .num)) kvs) = some (.num q) := by
        rw [lookupKey_updKey_ne _ _ (by decide)]
        exact hpos
      have hpar' : lookupKey "model_params"
          (updKey "model_history" (.arr ((qs ++ [p]).map .num)) kvs) =
            some mbParamsDefault := by
        rw [lookupKey_updKey_ne _ _ (by decide)]
        exact hpar
      have hflat' : lastN 4 (qs ++ [p]) = List.replicate 4 p :=
        lastN_flat_append p qs (by norm_num) hflat hlen
      have hlen' : 4 ≤ (qs ++ [p]).length := by
        simp only [List.length_append, List.length_singleton]
        omega
      obtain ⟨kvs₂, hiter, hpos₂⟩ := ih d p _ (qs ++ [p]) q hmh' hpos' hpar' hflat' hlen' hdev
      refine ⟨kvs₂, ?_, hpos₂⟩
      rw [List.replicate_succ]
      simp only [iterStrat, hstep, hiter, List.nil_append]

/-- Claim C2, counterexample.  At the constant price 10000 with the
4-price window already full of 10000 and position 0, the very next AR
invocation emits a SELL of 50 at the best bid and moves the persisted
position to −50: a flat price does not silence the AR strategy, because
its deviation `intercept + (Σcᵢ − 1)·p` grows with `p`. -/
theorem claim2_counterexample :
    (mbStrat ⟨[(9999, 4)], []⟩ 10000
      (some (.obj [("model_history",
          .arr [.num 10000, .num 10000, .num 10000, .num 10000]),
        ("position", .num 0), ("model_params", mbParamsDefault)]))).map
        (fun r => (r.1, jGet r.2 "position"))
      = .ok ([{ symbol := targetProduct, price := 9999, quantity := -50 }],
             .ok (.num (-50))) := by
  simp only [mbStrat]
  simp [compute_model_based_orders, jSetDefault, jHasKey, lookupKey, jAppendKey, jGet,
    updKey, jmemStr, mbParamsDefault, mbCoeffs, mbIntercept, sumTerms, asNum, lastN,
    bestBidD, bestAskD]
  norm_num [lt_abs, lookupKey]
  rfl

/-- Claim C2, witness: two flat repetitions at price 100 leave both
strategies silent and keep their persisted positions (3 for the
mean-reversion state, 5 for the AR state). -/
theorem claim2_witness :
    (lastN 20 (List.replicate 20 (100 : ℚ)) = List.replicate 20 100 ∧
      ∃ kvs₂, iterStrat rfStrat (List.replicate 2 (⟨[(9, 1)], [(11, 1)]⟩, 100))
          (some (.obj [("rainforest_prices",
              .arr ((List.replicate 20 (100 : ℚ)).map .num)),
            ("position", .num 3)])) =
          .ok ([], some (.obj kvs₂)) ∧
        lookupKey "position" kvs₂ =
          lookupKey "position" [("rainforest_prices",
              .arr ((List.replicate 20 (100 : ℚ)).map JVal.num)),
            ("position", .num 3)]) ∧
    (|mbDev (List.replicate 4 (100 : ℚ)) 100| ≤ 1 ∧
      ∃ kvs₂, iterStrat mbStrat (List.replicate 2 (⟨[(9, 1)], [(11, 1)]⟩, 100))
          (some (.obj [("model_history", .arr ((List.replicate 4 (100 : ℚ)).map .num)),
            ("position", .num 5), ("model_params", mbParamsDefault)])) =
          .ok ([], some (.obj kvs₂)) ∧
        lookupKey "position" kvs₂ = some (.num 5)) := by
  constructor
  · refine ⟨lastN_replicate 100 (by norm_num), ?_⟩
    exact claim2_amended.1 2 ⟨[(9, 1)], [(11, 1)]⟩ 100 _ (List.replicate 20 (100 : ℚ))
      (by rfl) (lastN_replicate 100 (by norm_num)) (by simp)
  · have hdev : |mbDev (List.replicate 4 (100 : ℚ)) 100| ≤ 1 := by
      norm_num [mbDev, mbCoeffs, mbIntercept, List.replicate, abs_le]
    refine ⟨hdev, ?_⟩
    exact claim2_amended.2 2 ⟨[(9, 1)], [(11, 1)]⟩ 100 _ (List.replicate 4 (100 : ℚ)) 5
      (by rfl) (by rfl) (by rfl) (lastN_replicate 100 (by norm_num)) (by simp) hdev

theorem mb_none_eval (d : OrderDepth) (m : ℚ) :
    mbStrat d m none =
      .ok ([], .obj [("model_history", .arr [.num m]), ("position", .num 0),
                     ("model_params", mbParamsDefault)]) := by
  simp [mbStrat, compute_model_based_orders, jSetDefault, jHasKey, lookupKey,
    jAppendKey, updKey]

theorem mb_step_inv (d : OrderDepth) (m : ℚ) (kvs : List (String × JVal))
    (qs : List ℚ) (q : ℚ)
    (hmh : lookupKey "model_history" kvs = some (.arr (qs.map .num)))
    (hpos : lookupKey "position" kvs = some (.num q))
    (hpar : lookupKey "model_params" kvs = some mbParamsDefault)
    (hq1 : -50 ≤ q) (hq2 : q ≤ 50) :
    ∃ os kvs₂, mbStrat d m (some (.obj kvs)) = .ok (os, .obj kvs₂) ∧
      lookupKey "model_history" kvs₂ = some (.arr ((qs ++ [m]).map .num)) ∧
      lookupKey "model_params" kvs₂ = some mbParamsDefault ∧
      ∃ q', lookupKey "position" kvs₂ = some (.num q') ∧ -50 ≤ q' ∧ q' ≤ 50 := by
  rw [mbStrat, mb_eval d m kvs qs q hmh hpos hpar]
  have hmh' : lookupKey "model_history"
      (updKey "model_history" (.arr ((qs ++ [m]).map .num)) kvs) =
        some (.arr ((qs ++ [m]).map .num)) :=
    lookupKey_updKey_self _ hmh
  have hpos' : lookupKey "position"
      (updKey "model_history" (.arr ((qs ++ [m]).map .num)) kvs) = some (.num q) := by
    rw [lookupKey_updKey_ne _ _ (by decide)]
    exact hpos
  have hpar' : lookupKey "model_params"
      (updKey "model_history" (.arr ((qs ++ [m]).map .num)) kvs) =
        some mbParamsDefault := by
    rw [lookupKey_updKey_ne _ _ (by decide)]
    exact hpar
  unfold mbDecision
  split_ifs with h1 h2 h3 h4 h5 h6
  · refine ⟨_, _, rfl, ?_, ?_, q + (50 - q), ?_, by norm_num, by norm_num⟩
    · rw [lookupKey_updKey_ne _ _ (by decide)]
      exact hmh'
    · rw [lookupKey_updKey_ne _ _ (by decide)]
      exact hpar'
    · exact lookupKey_updKey_self _ hpos'
  · exact ⟨_, _, rfl, hmh', hpar', q, hpos', hq1, hq2⟩
  · refine ⟨_, _, rfl, ?_, ?_, q - (q + 50), ?_, by norm_num, by norm_num⟩
    · rw [lookupKey_updKey_ne _ _ (by decide)]
      exact hmh'
    · rw [lookupKey_updKey_ne _ _ (by decide)]
      exact hpar'
    · exact lookupKey_updKey_self _ hpos'
  · exact ⟨_, _, rfl, hmh', hpar', q, hpos', hq1, hq2⟩
  · exact ⟨_, _, rfl, hmh', hpar', q, hpos', hq1, hq2⟩
  · exact ⟨_, _, rfl, hmh', hpar', q, hpos', hq1, hq2⟩
  · exact ⟨_, _, rfl, hmh', hpar', q, hpos', hq1, hq2⟩

theorem mb_iter_inv (inputs : List (OrderDepth × ℚ)) :
    ∀ (kvs : List (String × JVal)) (qs : List ℚ) (q : ℚ),
      lookupKey "model_history" kvs = some (.arr (qs.map .num)) →
      lookupKey "position" kvs = some (.num q) →
      lookupKey "model_params" kvs = some mbParamsDefault →
      -50 ≤ q → q ≤ 50 →
      ∀ (os : List Order) (b : Blob),
        iterStrat mbStrat inputs (some (.obj kvs)) = .ok (os, b) →
        ∃ kvs₂ q', b = some (.obj kvs₂) ∧
          lookupKey "position" kvs₂ = some (.num q') ∧ -50 ≤ q' ∧ q' ≤ 50 := by
  induction inputs with
  | nil =>
    intro kvs qs q hmh hpos hpar hq1 hq2 os b hit
    simp only [iterStrat, Except.ok.injEq, Prod.mk.injEq] at hit
    exact ⟨kvs, q, hit.2.symm, hpos, hq1, hq2⟩
  | cons x rest ih =>
    obtain ⟨d, m⟩ := x
    intro kvs qs q hmh hpos hpar hq1 hq2 os b hit
    obtain ⟨os₁, kvs₂, hstep, hmh₂, hpar₂, q', hpos₂, hb1, hb2⟩ :=
      mb_step_inv d m kvs qs q hmh hpos hpar hq1 hq2
    simp only [iterStrat, hstep] at hit
    cases hrec : iterStrat mbStrat rest (some (.obj kvs₂)) with
    | error e =>
      rw [hrec] at hit
      cases hit
    | ok pr =>
      obtain ⟨os₂, b₂⟩ := pr
      rw [hrec] at hit
      simp only [Except.ok.injEq, Prod.mk.injEq] at hit
      obtain ⟨kvs₃, q₃, hb, hp, h1, h2⟩ :=
        ih kvs₂ (qs ++ [m]) q' hmh₂ hpos₂ hpar₂ hb1 hb2 os₂ b₂ hrec
      exact ⟨kvs₃, q₃, hit.2 ▸ hb, hp, h1, h2⟩

/-- Claim C7.  Every state reachable by iterating the AR strategy from
the default-initialised state (starting blob undecodable, position 0)
keeps the persisted position within [−50, 50], and a single call from
any well-typed in-bound state returns an in-bound position again. -/
theorem claim7 :
    (∀ (inputs : List (OrderDepth × ℚ)) (os : List Order) (st : JVal),
      iterStrat mbStrat inputs none = .ok (os, some st) →
      ∃ kvs q, st = .obj kvs ∧ lookupKey "position" kvs = some (.num q) ∧
        -50 ≤ q ∧ q ≤ 50) ∧
    (∀ (d : OrderDepth) (m : ℚ) (kvs : List (String × JVal)) (qs : List ℚ) (q : ℚ),
      lookupKey "model_history" kvs = some (.arr (qs.map .num)) →
      lookupKey "position" kvs = some (.num q) →
      lookupKey "model_params" kvs = some mbParamsDefault →
      -50 ≤ q → q ≤ 50 →
      ∃ os kvs₂, mbStrat d m (some (.obj kvs)) = .ok (os, .obj kvs₂) ∧
        ∃ q', lookupKey "position" kvs₂ = some (.num q') ∧ -50 ≤ q' ∧ q' ≤ 50) := by
  constructor
  · intro inputs os st hit
    cases inputs with
    | nil =>
      simp only [iterStrat, Except.ok.injEq, Prod.mk.injEq] at hit
      cases hit.2
    | cons x rest =>
      obtain ⟨d, m⟩ := x
      simp only [iterStrat, mb_none_eval d m] at hit
      cases hrec : iterStrat mbStrat rest
          (some (.obj [("model_history", .arr [.num m]), ("position", .num 0),
                       ("model_params", mbParamsDefault)])) with
      | error e =>
        rw [hrec] at hit
        cases hit
      | ok pr =>
        obtain ⟨os₂, b₂⟩ := pr
        rw [hrec] at hit
        simp only [Except.ok.injEq, Prod.mk.injEq] at hit
        obtain ⟨kvs₃, q₃, hb, hp, h1, h2⟩ :=
          mb_iter_inv rest _ [m] 0 (by rfl) (by rfl) (by rfl) (by norm_num) (by norm_num)
            os₂ b₂ hrec
        refine ⟨kvs₃, q₃, ?_, hp, h1, h2⟩
        have hb₂ : b₂ = some st := hit.2
        rw [hb₂] at hb
        cases hb
        rfl
  · intro d m kvs qs q hmh hpos hpar hq1 hq2
    obtain ⟨os, kvs₂, hcall, _, _, q', hp, h1, h2⟩ :=
      mb_step_inv d m kvs qs q hmh hpos hpar hq1 hq2
    exact ⟨os, kvs₂, hcall, q', hp, h1, h2⟩

/-- Claim C7, witness: one AR cycle from the default state reaches
position 0, and a single call from a well-typed state at the bound 50
stays within [−50, 50]. -/
theorem claim7_witness :
    (iterStrat mbStrat [(⟨[], []⟩, 5)] none =
      .ok ([], some (.obj [("model_history", .arr [.num 5]), ("position", .num 0),
                           ("model_params", mbParamsDefault)])) ∧
     ∃ kvs q, JVal.obj [("model_history", .arr [.num 5]), ("position", .num 0),
         ("model_params", mbParamsDefault)] = .obj kvs ∧
       lookupKey "position" kvs = some (.num q) ∧ -50 ≤ q ∧ q ≤ 50) ∧
    (∃ os kvs₂, mbStrat ⟨[], []⟩ 5
        (some (.obj [("model_history", .arr [.num 1]), ("position", .num 50),
                     ("model_params", mbParamsDefault)])) = .ok (os, .obj kvs₂) ∧
      ∃ q', lookupKey "position" kvs₂ = some (.num q') ∧ -50 ≤ q' ∧ q' ≤ 50) := by
  have hit : iterStrat mbStrat [(⟨[], []⟩, 5)] none =
      .ok ([], some (.obj [("model_history", .arr [.num 5]), ("position", .num 0),
                           ("model_params", mbParamsDefault)])) := by
    simp only [iterStrat, mb_none_eval, List.nil_append]
  refine ⟨⟨hit, claim7.1 [(⟨[], []⟩, 5)] [] _ hit⟩, ?_⟩
  exact claim7.2 ⟨[], []⟩ 5 _ [1] 50 (by rfl) (by rfl) (by rfl) (by norm_num) (by norm_num)

/-- Claim C6, witness: concrete books exercising all four mid-price
cases and the empty-book orchestrator path. -/
theorem claim6_witness :
    midPrice ⟨[(10, 1), (9, 2)], [(12, 1), (13, 1)]⟩ = some ((10 + 12) / 2) ∧
    midPrice ⟨[], [(12, 1), (13, 1)]⟩ = some 12 ∧
    midPrice ⟨[(10, 1), (9, 2)], []⟩ = some 10 ∧
    midPrice ⟨[], []⟩ = none ∧
    Trader.run [("KELP", ⟨[(1, 1)], [(2, 1)]⟩), (targetProduct, ⟨[], []⟩)] none =
      .ok (nonTargetResult [("KELP", ⟨[(1, 1)], [(2, 1)]⟩), (targetProduct, ⟨[], []⟩)] ++
            [(targetProduct, [])], 1, none) := by
  have hmax : ((OrderDepth.buy_orders ⟨[(10, 1), (9, 2)], [(12, 1), (13, 1)]⟩).map
      Prod.fst).max? = some 10 := by
    norm_num [List.max?, List.foldl, max_def]
  have hmin : ((OrderDepth.sell_orders ⟨[(10, 1), (9, 2)], [(12, 1), (13, 1)]⟩).map
      Prod.fst).min? = some 12 := by
    norm_num [List.min?, List.foldl, min_def]
  have hmax' : ((OrderDepth.buy_orders ⟨[(10, 1), (9, 2)], []⟩).map Prod.fst).max? =
      some 10 := by
    norm_num [List.max?, List.foldl, max_def]
  have hmin' : ((OrderDepth.sell_orders ⟨[], [(12, 1), (13, 1)]⟩).map Prod.fst).min? =
      some 12 := by
    norm_num [List.min?, List.foldl, min_def]
  exact ⟨claim6.1 _ 10 12 hmax hmin,
         claim6.2.1 _ 12 rfl hmin',
         claim6.2.2.1 _ 10 rfl hmax',
         claim6.2.2.2.1 _ rfl rfl,
         claim6.2.2.2.2.1 _ none ⟨[], []⟩ (by rfl) rfl rfl⟩

/-- Claim C10, witness: a snapshot without the target instrument, and
one whose target book is empty; in both cases the (undecodable) input
blob is returned verbatim. -/
theorem claim10_witness :
    Trader.run [("KELP", ⟨[(1, 1)], [(2, 1)]⟩)] (some (.str "junk")) =
      .ok (nonTargetResult [("KELP", ⟨[(1, 1)], [(2, 1)]⟩)], 1, some (.str "junk")) ∧
    Trader.run [(targetProduct, ⟨[], []⟩)] (some (.str "junk")) =
      .ok (nonTargetResult [(targetProduct, ⟨[], []⟩)] ++ [(targetProduct, [])], 1,
           some (.str "junk")) :=
  ⟨(claim10 _ _).1 (by rfl),
   (claim10 _ _).2 ⟨[], []⟩ (by rfl) rfl rfl⟩

theorem rf_eval_absent (d : OrderDepth) (m : ℚ) (kvs : List (String × JVal))
    (hrf : lookupKey "rainforest_prices" kvs = none) :
    compute_rainforest_orders targetProduct d m (some (.obj kvs)) 20 10 =
      .ok ([], .obj (updKey "rainforest_prices" (.arr [.num m])
        (kvs ++ [("rainforest_prices", .arr [])]))) := by
  have hload : rfLoadHistory (some (.obj kvs)) =
      .obj (kvs ++ [("rainforest_prices", .arr [])]) := by
    simp [rfLoadHistory, hrf]
  have hrf' : lookupKey "rainforest_prices" (kvs ++ [("rainforest_prices", .arr [])]) =
      some (.arr []) := by
    rw [lookupKey_append_none hrf]
    rfl
  have happ : jAppendKey (.obj (kvs ++ [("rainforest_prices", .arr [])]))
      "rainforest_prices" (.num m) =
      .ok (.obj (updKey "rainforest_prices" (.arr [.num m])
        (kvs ++ [("rainforest_prices", .arr [])])), [.num m]) := by
    simp [jAppendKey, hrf']
  have hnotlen : ¬ (20 ≤ ([JVal.num m]).length) := by
    simp
  simp only [compute_rainforest_orders, hload, happ, hnotlen, if_false]

theorem rf_raises (d : OrderDepth) (m : ℚ) (kvs : List (String × JVal)) (v : JVal)
    (hrf : lookupKey "rainforest_prices" kvs = some v) (hv : ∀ xs, v ≠ .arr xs) :
    compute_rainforest_orders targetProduct d m (some (.obj kvs)) 20 10 =
      .error .attributeError := by
  have hload : rfLoadHistory (some (.obj kvs)) = .obj kvs := by
    simp [rfLoadHistory, hrf]
  cases v with
  | arr xs => exact absurd rfl (hv xs)
  | null => simp [compute_rainforest_orders, hload, jAppendKey, hrf]
  | bool b => simp [compute_rainforest_orders, hload, jAppendKey, hrf]
  | num q => simp [compute_rainforest_orders, hload, jAppendKey, hrf]
  | str s => simp [compute_rainforest_orders, hload, jAppendKey, hrf]
  | obj kvs₂ => simp [compute_rainforest_orders, hload, jAppendKey, hrf]

theorem rf_preserves (d : OrderDepth) (m : ℚ) (kvs : List (String × JVal))
    (os : List Order) (st : JVal)
    (h : compute_rainforest_orders targetProduct d m (some (.obj kvs)) 20 10 =
      .ok (os, st)) :
    ∀ k, k ≠ "rainforest_prices" →
      ∃ kvs₂, st = .obj kvs₂ ∧ lookupKey k kvs₂ = lookupKey k kvs := by
  intro k hk
  cases hrf : lookupKey "rainforest_prices" kvs with
  | none =>
    rw [rf_eval_absent d m kvs hrf] at h
    simp only [Except.ok.injEq, Prod.mk.injEq] at h
    refine ⟨_, h.2.symm, ?_⟩
    rw [lookupKey_updKey_ne _ _ hk, lookupKey_append_ne _ _ hk]
  | some v =>
    cases v with
    | arr xs =>
      rw [rf_eval d m kvs xs hrf] at h
      rw [rfDecision] at h
      split at h
      · split at h
        · cases h
        · simp only [Except.ok.injEq, Prod.mk.injEq] at h
          exact ⟨_, h.2.symm, lookupKey_updKey_ne _ _ hk⟩
      · simp only [Except.ok.injEq, Prod.mk.injEq] at h
        exact ⟨_, h.2.symm, lookupKey_updKey_ne _ _ hk⟩
    | null => rw [rf_raises d m kvs _ hrf (by intro xs hc; cases hc)] at h; cases h
    | bool b => rw [rf_raises d m kvs _ hrf (by intro xs hc; cases hc)] at h; cases h
    | num q => rw [rf_raises d m kvs _ hrf (by intro xs hc; cases hc)] at h; cases h
    | str s => rw [rf_raises d m kvs _ hrf (by intro xs hc; cases hc)] at h; cases h
    | obj kvs₃ => rw [rf_raises d m kvs _ hrf (by intro xs hc; cases hc)] at h; cases h

theorem mb_preserves (d : OrderDepth) (m : ℚ) (kvs : List (String × JVal))
    (os : List Order) (st : JVal)
    (h : compute_model_based_orders targetProduct d m (some (.obj kvs)) 4 10 1 50 =
      .ok (os, st)) :
    ∀ k, k ≠ "model_history" → k ≠ "position" → k ≠ "model_params" →
      ∃ kvs₂, st = .obj kvs₂ ∧ lookupKey k kvs₂ = lookupKey k kvs := by
  intro k h1 h2 h3
  set kvs1 := if (lookupKey "model_history" kvs).isSome then kvs
      else kvs ++ [("model_history", .arr [])] with hk1
  set kvs2 := if (lookupKey "position" kvs1).isSome then kvs1
      else kvs1 ++ [("position", .num 0)] with hk2
  set kvs3 := if (lookupKey "model_params" kvs2).isSome then kvs2
      else kvs2 ++ [("model_params", mbParamsDefault)] with hk3
  have hs1 : jSetDefault (.obj kvs) "model_history" (.arr []) = .ok (.obj kvs1) :=
    jSetDefault_obj kvs "model_history" (.arr [])
  have hs2 : jSetDefault (.obj kvs1) "position" (.num 0) = .ok (.obj kvs2) :=
    jSetDefault_obj kvs1 "position" (.num 0)
  have hs3 : jSetDefault (.obj kvs2) "model_params" mbParamsDefault = .ok (.obj kvs3) :=
    jSetDefault_obj kvs2 "model_params" mbParamsDefault
  have hpres : lookupKey k kvs3 = lookupKey k kvs := by
    have e1 : lookupKey k kvs1 = lookupKey k kvs := by
      rw [hk1]
      split
      · rfl
      · exact lookupKey_append_ne _ _ h1
    have e2 : lookupKey k kvs2 = lookupKey k kvs1 := by
      rw [hk2]
      split
      · rfl
      · exact lookupKey_append_ne _ _ h2
    have e3 : lookupKey k kvs3 = lookupKey k kvs2 := by
      rw [hk3]
      split
      · rfl
      · exact lookupKey_append_ne _ _ h3
    rw [e3, e2, e1]
  simp only [compute_model_based_orders, hs1, hs2, hs3] at h
  cases hmh3 : lookupKey "model_history" kvs3 with
  | none =>
    simp [jAppendKey, hmh3] at h
  | some v =>
    cases v with
    | arr xs =>
      simp only [jAppendKey, hmh3] at h
      have hpres4 : lookupKey k (updKey "model_history" (.arr (xs ++ [.num m])) kvs3) =
          lookupKey k kvs := by
        rw [lookupKey_updKey_ne _ _ h1, hpres]
      repeat' split at h
      all_goals try cases h
      all_goals try refine ⟨_, rfl, ?_⟩
      all_goals try rw [lookupKey_updKey_ne _ _ h2]
      all_goals exact hpres4
    | null => simp [jAppendKey, hmh3] at h
    | bool b => simp [jAppendKey, hmh3] at h
    | num q => simp [jAppendKey, hmh3] at h
    | str s => simp [jAppendKey, hmh3] at h
    | obj kvs₄ => simp [jAppendKey, hmh3] at h

/-- Claim C3, amended.  Whenever a strategy call on a JSON-object blob
returns normally, the returned blob is an object in which every
top-level key other than the strategy's own sub-keys
(`rainforest_prices`; `model_history`, `position`, `model_params`) is
mapped exactly as in the input.  (The unamended claim also covered
object blobs on which the call raises instead of returning — e.g. an
owned sub-key holding a non-list — where no blob is returned at all.) -/
theorem claim3_amended :
    (∀ (d : OrderDepth) (m : ℚ) (kvs : List (String × JVal)) (os : List Order) (st : JVal),
      compute_rainforest_orders targetProduct d m (some (.obj kvs)) 20 10 = .ok (os, st) →
      ∀ k, k ≠ "rainforest_prices" →
        ∃ kvs₂, st = .obj kvs₂ ∧ lookupKey k kvs₂ = lookupKey k kvs) ∧
    (∀ (d : OrderDepth) (m : ℚ) (kvs : List (String × JVal)) (os : List Order) (st : JVal),
      compute_model_based_orders targetProduct d m (some (.obj kvs)) 4 10 1 50 =
        .ok (os, st) →
      ∀ k, k ≠ "model_history" → k ≠ "position" → k ≠ "model_params" →
        ∃ kvs₂, st = .obj kvs₂ ∧ lookupKey k kvs₂ = lookupKey k kvs) :=
  ⟨fun d m kvs os st h => rf_preserves d m kvs os st h,
   fun d m kvs os st h => mb_preserves d m kvs os st h⟩

/-- Claim C3, counterexample.  On the JSON-object blob
`{"rainforest_prices": 1, "extra": 7}` the mean-reversion entry point
raises `AttributeError` (append on a number), so no read-modify-write
result exists for this object blob and nothing is preserved. -/
theorem claim3_counterexample :
    compute_rainforest_orders targetProduct ⟨[], [(7, 2)]⟩ 5
      (some (.obj [("rainforest_prices", .num 1), ("extra", .num 7)])) 20 10 =
      .error .attributeError := by
  rfl

/-- Claim C3, witness: a successful call on an object blob carrying the
foreign key `extra`, which survives with its value intact in both
strategies' returned blobs. -/
theorem claim3_witness :
    (compute_rainforest_orders targetProduct ⟨[], [(7, 2)]⟩ 5
        (some (.obj [("extra", .num 7), ("rainforest_prices", .arr [.num 3])])) 20 10 =
      .ok ([], .obj [("extra", .num 7), ("rainforest_prices", .arr [.num 3, .num 5])]) ∧
      ∃ kvs₂, JVal.obj [("extra", .num 7), ("rainforest_prices", .arr [.num 3, .num 5])] =
          .obj kvs₂ ∧
        lookupKey "extra" kvs₂ =
          lookupKey "extra" [("extra", .num 7), ("rainforest_prices", .arr [.num 3])]) ∧
    (compute_model_based_orders targetProduct ⟨[], [(7, 2)]⟩ 5
        (some (.obj [("extra", .num 7), ("model_history", .arr [.num 3])])) 4 10 1 50 =
      .ok ([], .obj [("extra", .num 7), ("model_history", .arr [.num 3, .num 5]),
                     ("position", .num 0), ("model_params", mbParamsDefault)]) ∧
      ∃ kvs₂, JVal.obj [("extra", .num 7), ("model_history", .arr [.num 3, .num 5]),
            ("position", .num 0), ("model_params", mbParamsDefault)] = .obj kvs₂ ∧
        lookupKey "extra" kvs₂ =
          lookupKey "extra" [("extra", .num 7), ("model_history", .arr [.num 3])]) := by
  have h1 : compute_rainforest_orders targetProduct ⟨[], [(7, 2)]⟩ 5
      (some (.obj [("extra", .num 7), ("rainforest_prices", .arr [.num 3])])) 20 10 =
      .ok ([], .obj [("extra", .num 7), ("rainforest_prices", .arr [.num 3, .num 5])]) := by
    rfl
  have h2 : compute_model_based_orders targetProduct ⟨[], [(7, 2)]⟩ 5
      (some (.obj [("extra", .num 7), ("model_history", .arr [.num 3])])) 4 10 1 50 =
      .ok ([], .obj [("extra", .num 7), ("model_history", .arr [.num 3, .num 5]),
                     ("position", .num 0), ("model_params", mbParamsDefault)]) := by
    rfl
  exact ⟨⟨h1, claim3_amended.1 _ _ _ _ _ h1 "extra" (by decide)⟩,
         ⟨h2, claim3_amended.2 _ _ _ _ _ h2 "extra" (by decide) (by decide) (by decide)⟩⟩

theorem mem_of_lookupKey_some {α : Type} {k : String} {l : List (String × α)} {v : α}
    (h : lookupKey k l = some v) : k ∈ l.map Prod.fst := by
  by_contra hc
  rw [← lookupKey_eq_none_iff] at hc
  rw [hc] at h
  cases h

theorem mem_keys_nonTargetResult (l : List (String × OrderDepth)) (k : String) :
    k ∈ (nonTargetResult l).map Prod.fst ↔
      k ∈ l.map Prod.fst ∧ k ≠ targetProduct := by
  simp only [nonTargetResult, List.map_map, List.mem_map, List.mem_filter,
    Function.comp, decide_eq_true_eq]
  constructor
  · rintro ⟨p, ⟨hp, hne⟩, rfl⟩
    exact ⟨⟨p, hp, rfl⟩, hne⟩
  · rintro ⟨⟨p, hp, rfl⟩, hne⟩
    exact ⟨p, ⟨hp, hne⟩, rfl⟩

theorem lookupKey_nonTargetResult (l : List (String × OrderDepth)) (k : String)
    (hk : k ≠ targetProduct) (hmem : k ∈ l.map Prod.fst) :
    lookupKey k (nonTargetResult l) = some [] := by
  induction l with
  | nil => simp at hmem
  | cons p rest ih =>
    obtain ⟨k₂, d₂⟩ := p
    simp only [List.map_cons, List.mem_cons] at hmem
    by_cases h2 : k₂ = targetProduct
    · have hne : k ≠ k₂ := fun hh => hk (hh.trans h2)
      have hmem' : k ∈ rest.map Prod.fst := by
        cases hmem with
        | inl hh => exact absurd hh hne
        | inr hh => exact hh
      simpa [nonTargetResult, List.filter_cons, h2] using ih hmem'
    · by_cases h3 : k₂ = k
      · simp [nonTargetResult, List.filter_cons, h2, lookupKey, h3, hk]
      · have hmem' : k ∈ rest.map Prod.fst := by
          cases hmem with
          | inl hh => exact absurd hh.symm h3
          | inr hh => exact hh
        simpa [nonTargetResult, List.filter_cons, h2, lookupKey, h3] using ih hmem'

theorem res_keys_lookup (l : List (String × OrderDepth)) (X : List Order)
    (htg : targetProduct ∈ l.map Prod.fst) :
    (∀ k, k ∈ (nonTargetResult l ++ [(targetProduct, X)]).map Prod.fst ↔
      k ∈ l.map Prod.fst) ∧
    (∀ k, k ≠ targetProduct → k ∈ l.map Prod.fst →
      lookupKey k (nonTargetResult l ++ [(targetProduct, X)]) = some []) := by
  constructor
  · intro k
    simp only [List.map_append, List.mem_append, mem_keys_nonTargetResult,
      List.map_cons, List.map_nil, List.mem_singleton]
    constructor
    · rintro (⟨hm, _⟩ | hk)
      · exact hm
      · rw [hk]
        exact htg
    · intro hm
      by_cases hk : k = targetProduct
      · right
        exact hk
      · left
        exact ⟨hm, hk⟩
  · intro k hk hm
    exact lookupKey_append_some (lookupKey_nonTargetResult l k hk hm)

/-- Claim C9, amended.  Whenever `Trader.run` returns normally, its
result map has exactly the snapshot's instrument keys, every non-target
instrument maps to the empty order list, and the conversions value is 1.
(The unamended claim quantified over every blob, but for pathological
blobs the strategy call raises and nothing is returned.) -/
theorem claim9_amended (order_depths : List (String × OrderDepth)) (traderData : Blob)
    (res : List (String × List Order)) (conv : ℤ) (newData : Blob)
    (h : Trader.run order_depths traderData = .ok (res, conv, newData)) :
    (∀ k, k ∈ res.map Prod.fst ↔ k ∈ order_depths.map Prod.fst) ∧
    (∀ k, k ≠ targetProduct → k ∈ order_depths.map Prod.fst →
      lookupKey k res = some []) ∧
    conv = 1 := by
  rw [Trader.run] at h
  cases hlook : lookupKey targetProduct order_depths with
  | none =>
    rw [hlook] at h
    simp only [Except.ok.injEq, Prod.mk.injEq] at h
    obtain ⟨hres, hconv, _⟩ := h
    have htg : targetProduct ∉ order_depths.map Prod.fst :=
      lookupKey_eq_none_iff.mp hlook
    refine ⟨?_, ?_, hconv.symm⟩
    · intro k
      rw [← hres]
      rw [mem_keys_nonTargetResult]
      constructor
      · exact fun hh => hh.1
      · intro hm
        refine ⟨hm, ?_⟩
        intro hkt
        rw [hkt] at hm
        exact htg hm
    · intro k hk hm
      rw [← hres]
      exact lookupKey_nonTargetResult order_depths k hk hm
  | some od =>
    simp only [hlook] at h
    have htg : targetProduct ∈ order_depths.map Prod.fst :=
      mem_of_lookupKey_some hlook
    cases hmid : midPrice od with
    | none =>
      simp only [hmid] at h
      simp only [Except.ok.injEq, Prod.mk.injEq] at h
      obtain ⟨hres, hconv, _⟩ := h
      obtain ⟨hkeys, hlk⟩ := res_keys_lookup order_depths [] htg
      refine ⟨?_, ?_, hconv.symm⟩
      · intro k
        rw [← hres]
        exact hkeys k
      · intro k hk hm
        rw [← hres]
        exact hlk k hk hm
    | some mid =>
      simp only [hmid] at h
      cases hcall : compute_rainforest_orders targetProduct od mid traderData 20 10 with
      | error e =>
        simp only [hcall] at h
        cases h
      | ok pr =>
        obtain ⟨orders, nd⟩ := pr
        simp only [hcall] at h
        simp only [Except.ok.injEq, Prod.mk.injEq] at h
        obtain ⟨hres, hconv, _⟩ := h
        obtain ⟨hkeys, hlk⟩ := res_keys_lookup order_depths orders htg
        refine ⟨?_, ?_, hconv.symm⟩
        · intro k
          rw [← hres]
          exact hkeys k
        · intro k hk hm
          rw [← hres]
          exact hlk k hk hm

/-- Claim C9, counterexample.  With the target instrument quoted but a
blob whose `rainforest_prices` is a number, `Trader.run` raises instead
of returning, so no result map exists for this snapshot/blob pair. -/
theorem claim9_counterexample :
    Trader.run [(targetProduct, ⟨[], [(7, 2)]⟩)]
      (some (.obj [("rainforest_prices", .num 1)])) = .error .attributeError := by
  rfl

/-- Claim C9, witness: a two-instrument snapshot on which `Trader.run`
returns; the non-target instrument is acknowledged with an empty list,
its key is in the result, and conversions is 1. -/
theorem claim9_witness :
    (Trader.run [("KELP", ⟨[(1, 1)], [(2, 1)]⟩), (targetProduct, ⟨[], [(7, 2)]⟩)] none =
      .ok ([("KELP", []), (targetProduct, [])], 1,
           some (.obj [("rainforest_prices", .arr [.num 7])]))) ∧
    lookupKey "KELP" [("KELP", ([] : List Order)), (targetProduct, [])] = some [] ∧
    ("KELP" ∈ ([("KELP", ([] : List Order)), (targetProduct, [])]).map Prod.fst ↔
      "KELP" ∈ ([("KELP", OrderDepth.mk [(1, 1)] [(2, 1)]),
        (targetProduct, ⟨[], [(7, 2)]⟩)]).map Prod.fst) := by
  have hrun : Trader.run [("KELP", ⟨[(1, 1)], [(2, 1)]⟩), (targetProduct, ⟨[], [(7, 2)]⟩)]
      none = .ok ([("KELP", []), (targetProduct, [])], 1,
        some (.obj [("rainforest_prices", .arr [.num 7])])) := by
    rfl
  refine ⟨hrun, ?_, ?_⟩
  · exact (claim9_amended _ _ _ _ _ hrun).2.1 "KELP" (by decide) (by decide)
  · exact (claim9_amended _ _ _ _ _ hrun).1 "KELP"
